import Mathlib

/-!
Shallow embedding of `src/baselines/ddpg/ddpg.py` (DDPG training script).

The environment, the neural networks and the replay buffer are external
collaborators of the script (`gym`, `models.py`, `replay_buffer.py`), so they
are modelled at their interface:

* an environment episode is a script: an initial raw observation, one step
  function per environment step (mapping the action sent to `env.step` to the
  resulting `(obs, reward, done)`), and the `action_space.sample()` stream;
* the agent's `select_action` is an opaque function parameter;
* the replay buffer, the agent mutations (`align_target`, `update`,
  `sample`) and the logger calls are recorded as an event trace, in the
  order the script performs them.

Machine floats are modelled as `ℚ`; `numpy` calls `flatten`/`astype` are
identity on our vectors.  `run_episode`, `run_policy` and `train` follow the
Python source line by line; divergence (an episode whose script never signals
`done`, i.e. an infinite `while not done` loop) and the `assert` at the top
of `run_episode` are made explicit in the result type.
-/

namespace DDPG

/-- Observation vector (a `numpy` float array in the source). -/
abbrev Obs := List ℚ

/-- Action vector (a `numpy` float array in the source). -/
abbrev Action := List ℚ

/-- Result of one `env.step(action)` call: `(obs, reward, done, _)`. -/
structure StepResult where
  obs : Obs
  reward : ℚ
  done : Bool

/-- One environment episode, as run_episode observes it through the gym
interface: the observation returned by `env.reset()`, the responses of
successive `env.step` calls (each a function of the action sent), and the
stream of `env.action_space.sample()` draws used in `random` mode. -/
structure EpisodeScript where
  init : Obs
  stepFns : List (Action → StepResult)
  actionSample : Nat → Action

/-- The environment across a whole run: the script of its `n`-th episode
(the episode started by the `n`-th `env.reset()` call). -/
abbrev Env := Nat → EpisodeScript

/-- The opaque part of the DDPG agent that `run_episode` uses:
`agent.select_action(obs, explore)`. -/
structure Agent where
  select_action : Obs → Bool → Action

/-- One transition record passed to `replay_buffer.add(current_obs, action,
next_obs, reward, done_bool)`.  `done` is the float `done_bool`. -/
structure Transition where
  observation : Obs
  action : Action
  next_observation : Obs
  reward : ℚ
  done : ℚ
  deriving DecidableEq

/-- Observable effects of the script, in program order. -/
inductive Event where
  | reset (mode : String)
  | envStep (action : Action)
  | add (t : Transition)
  | alignTarget
  | sample
  | update
  | logTrain (avg variance : ℚ)
  | tabular (iteration episodes steps : Nat) (avg variance : ℚ)
  deriving DecidableEq

/-- The three behavior modes accepted by `run_episode`. -/
def modeTrain : String := "train"

/-- Deterministic-evaluation mode. -/
def modeTest : String := "test"

/-- Uniform-random warm-up mode. -/
def modeRandom : String := "random"

/-- Clip one coordinate to `[-1, 1]` (`np.clip(action, -1.0, 1.0)`). -/
def clip1 (x : ℚ) : ℚ := max (-1) (min 1 x)

/-- Clip an action vector coordinatewise. -/
def clipAction (a : Action) : Action := a.map clip1

/-- The time-step feature appended to an observation is its last entry
(`np.append(obs, obs_step)`). -/
def timeFeature (o : Obs) : ℚ := o.getLastD 0

/-- The fixed time-step increment `1e-3` of the source
(`obs_step += 1e-3`). -/
def increment : ℚ := 1 / 1000

/-- Outcome of `run_episode`: the `assert` can fail, the `while not done`
loop can run forever (script exhausted without `done`), or the episode ends
returning `(episode_return, episode_length)`.  Events are the effects
performed before the outcome. -/
inductive RunResult where
  | assertionError
  | diverged (events : List Event)
  | finished (episode_return : ℚ) (episode_length : Nat) (events : List Event)
  deriving DecidableEq

/-- The mode dispatch of `run_episode`: the raw (unclipped) action chosen
for the augmented observation `obs` at sample-stream index `idx`. -/
def chooseRaw (agent : Agent) (mode : String) (actionSample : Nat → Action)
    (idx : Nat) (obs : Obs) : Action :=
  if mode = "train" then agent.select_action obs true
  else if mode = "test" then agent.select_action obs false
  else actionSample idx

/-- Effects of one loop body on the environment and the replay buffer: the
`env.step(action)` call, then — unless the mode is `test` — the
`replay_buffer.add` of the transition built by this step. -/
def stepEventsFn (mode : String) (t : Transition) : List Event :=
  if mode ≠ "test" then [Event.envStep t.action, Event.add t]
  else [Event.envStep t.action]

/-- The `while not done` loop of `run_episode`, one recursive call per
executed loop body.  Arguments mirror the Python locals: the raw observation
`obs` coming out of `reset`/`step`, the accumulators `obs_step`,
`episode_return`, `episode_length`, plus the index into the
`action_space.sample()` stream. -/
def runEpisodeLoop (agent : Agent) (mode : String) (actionSample : Nat → Action) :
    Obs → ℚ → Nat → ℚ → Nat → List (Action → StepResult) →
    Option (ℚ × Nat) × List Event
  | _, _, _, _, _, [] => (none, [])
  | rawObs, obs_step, idx, episode_return, episode_length, f :: rest =>
    let obs := rawObs ++ [obs_step]
    let action := clipAction (chooseRaw agent mode actionSample idx obs)
    let res := f action
    let t : Transition :=
      ⟨obs, action, res.obs ++ [obs_step + increment], res.reward,
       if res.done then 1 else 0⟩
    if res.done then
      (some (episode_return + res.reward, episode_length + 1),
       stepEventsFn mode t)
    else
      let r := runEpisodeLoop agent mode actionSample res.obs
        (obs_step + increment) (idx + 1) (episode_return + res.reward)
        (episode_length + 1) rest
      (r.1, stepEventsFn mode t ++ r.2)

/-- The source `run_episode(env, agent, replay_buffer, mode)`: assert the
mode, reset the environment, run the step loop. -/
def run_episode (agent : Agent) (script : EpisodeScript) (mode : String) :
    RunResult :=
  if mode = "train" ∨ mode = "test" ∨ mode = "random" then
    let r := runEpisodeLoop agent mode script.actionSample script.init 0 0 0 0
      script.stepFns
    match r.1 with
    | some (ret, len) => .finished ret len (Event.reset mode :: r.2)
    | none => .diverged (Event.reset mode :: r.2)
  else .assertionError

/-- Events performed by a `run_episode` outcome. -/
def eventsOf : RunResult → List Event
  | .assertionError => []
  | .diverged evts => evts
  | .finished _ _ evts => evts

/-- Episode return of a finished outcome (`0` otherwise). -/
def returnOf : RunResult → ℚ
  | .finished r _ _ => r
  | _ => 0

/-- Episode length of a finished outcome (`0` otherwise). -/
def lengthOf : RunResult → Nat
  | .finished _ l _ => l
  | _ => 0

/-- Whether the outcome is a finished episode. -/
def isFinished : RunResult → Bool
  | .finished _ _ _ => true
  | _ => false

/-- The source `run_policy(env, agent, replay_buffer, mode, episodes)`:
run `episodes` sequential episodes, collecting returns and summing lengths.
`epIdx` is the index of the next `env.reset()` call of the whole run.
Returns `none` when an episode asserts or diverges (the real script would
crash or hang). -/
def run_policy (env : Env) (agent : Agent) (mode : String) :
    Nat → Nat → Option (List ℚ × Nat × List Event)
  | 0, _ => some ([], 0, [])
  | n + 1, epIdx =>
    match run_episode agent (env epIdx) mode with
    | .finished ret len evts =>
      match run_policy env agent mode n (epIdx + 1) with
      | some (rets, steps, evts2) => some (ret :: rets, len + steps, evts ++ evts2)
      | none => none
    | _ => none

/-- The mean `np.mean(xs)` over `ℚ`. -/
def npMean (xs : List ℚ) : ℚ := xs.sum / xs.length

/-- The population variance `np.var(xs)`; the source logs
`np.std(xs)`, the square root of this value (the square root is not
rational, so the trace records the variance it is taken of). -/
def npVariance (xs : List ℚ) : ℚ :=
  (xs.map (fun x => (x - npMean xs) ^ 2)).sum / xs.length

/-- Events of the `for e in range(num_epoch)` loop: `num_epoch` times a
`replay_buffer.sample()` followed by an `agent.update(...)`. -/
def sampleUpdateSeq : Nat → List Event
  | 0 => []
  | n + 1 => Event.sample :: Event.update :: sampleUpdateSeq n

/-- Body of the inner `for i in range(eval_freq)` loop: collect `batch_size`
training episodes, log, then `total_steps // batch_size` sample/update
pairs.  Returns the events and the `total_steps` of the collection. -/
def trainBlock (env : Env) (agent : Agent) (batch_size epIdx : Nat) :
    Option (List Event × Nat) :=
  match run_policy env agent modeTrain batch_size epIdx with
  | some (train_returns, total_steps, evts) =>
    let num_epoch := total_steps / batch_size
    some (evts ++
      Event.logTrain (npMean train_returns) (npVariance train_returns) ::
        sampleUpdateSeq num_epoch,
      total_steps)
  | none => none

/-- The inner `for i in range(eval_freq)` loop, counting down the remaining
iterations and threading `(epIdx, current_episodes, current_steps)`. -/
def innerLoop (env : Env) (agent : Agent) (batch_size : Nat) :
    Nat → Nat → Nat → Nat → Option (List Event × Nat × Nat × Nat)
  | 0, epIdx, curE, curS => some ([], epIdx, curE, curS)
  | k + 1, epIdx, curE, curS =>
    match trainBlock env agent batch_size epIdx with
    | some (evts, total_steps) =>
      match innerLoop env agent batch_size k (epIdx + batch_size)
          (curE + batch_size) (curS + total_steps) with
      | some (evts2, a, b, c) => some (evts ++ evts2, a, b, c)
      | none => none
    | none => none

/-- The source constant `num_test_episodes = 10`. -/
def num_test_episodes : Nat := 10

/-- The outer `for iter in range(num_iteration)` loop: each iteration runs
the inner loop, then 10 test episodes, then emits one tabular record
`(iter, current_episodes, current_steps, avg_return, std_return)`. -/
def outerLoop (env : Env) (agent : Agent) (eval_freq batch_size : Nat) :
    Nat → Nat → Nat → Nat → Nat → Option (List Event × Nat × Nat × Nat)
  | 0, _, epIdx, curE, curS => some ([], epIdx, curE, curS)
  | n + 1, iterIdx, epIdx, curE, curS =>
    match innerLoop env agent batch_size eval_freq epIdx curE curS with
    | some (evtsI, epIdx1, e1, s1) =>
      match run_policy env agent modeTest num_test_episodes epIdx1 with
      | some (returns, _, evtsT) =>
        let tabRec :=
          Event.tabular iterIdx e1 s1 (npMean returns) (npVariance returns)
        match outerLoop env agent eval_freq batch_size n (iterIdx + 1)
            (epIdx1 + num_test_episodes) e1 s1 with
        | some (evtsR, a, b, c) =>
          some (evtsI ++ evtsT ++ tabRec :: evtsR, a, b, c)
        | none => none
      | none => none
    | none => none

/-- The source `train(...)` orchestrator, restricted to the core loop (seed
setting, logger configuration and network construction have no effect on the
trace beyond `align_target`): align targets, warm up with `start_episodes`
random episodes, then run `num_episodes // eval_freq` outer iterations. -/
def train (env : Env) (agent : Agent)
    (start_episodes num_episodes eval_freq batch_size : Nat) :
    Option (List Event) :=
  match run_policy env agent modeRandom start_episodes 0 with
  | some (_, _, warmEvts) =>
    let num_iteration := num_episodes / eval_freq
    match outerLoop env agent eval_freq batch_size num_iteration 0
        start_episodes 0 0 with
    | some (loopEvts, _, _, _) =>
      some (Event.alignTarget :: (warmEvts ++ loopEvts))
    | none => none
  | none => none

/-- Modelled from the spec: the bootstrapped critic target of
`Policy Agent.update` (file `models.py` is not in `src/`), computed for one
transition as `target_q = reward + γ * (1 - done) * Q_target(s, π_target(s))`
where `q_next` stands for `target_critic(next_observation,
target_actor(next_observation))`. -/
def target_q (gamma reward done q_next : ℚ) : ℚ :=
  reward + gamma * (1 - done) * q_next

/-- Modelled from the spec: the batched target computation of
`Policy Agent.update`, one `target_q` per `(reward, done, q_next)` row of
the batch. -/
def ddpgTargets (gamma : ℚ) (rows : List (ℚ × ℚ × ℚ)) : List ℚ :=
  rows.map fun r => target_q gamma r.1 r.2.1 r.2.2

/-! Event classifiers and trace measurements. -/

/-- Recognize a tabular record event. -/
def isTabular : Event → Bool
  | .tabular _ _ _ _ _ => true
  | _ => false

/-- Recognize an `agent.update` event. -/
def isUpdate : Event → Bool
  | .update => true
  | _ => false

/-- Recognize a `replay_buffer.sample` event. -/
def isSample : Event → Bool
  | .sample => true
  | _ => false

/-- Recognize an `env.step` event. -/
def isEnvStep : Event → Bool
  | .envStep _ => true
  | _ => false

/-- Recognize a `replay_buffer.add` event. -/
def isAdd : Event → Bool
  | .add _ => true
  | _ => false

/-- Recognize the `agent.align_target` event. -/
def isAlign : Event → Bool
  | .alignTarget => true
  | _ => false

/-- Recognize a training-line log event. -/
def isLogTrain : Event → Bool
  | .logTrain _ _ => true
  | _ => false

/-- Recognize an `env.reset` performed in mode `m`. -/
def isResetOf (m : String) : Event → Bool
  | .reset m2 => decide (m2 = m)
  | _ => false

/-- Number of episodes started in mode `m` within a trace. -/
def resetCount (m : String) (evts : List Event) : Nat :=
  evts.countP (isResetOf m)

/-- The transitions appended to the replay buffer along a trace, in order. -/
def addsOf (evts : List Event) : List Transition :=
  evts.filterMap fun e =>
    match e with
    | .add t => some t
    | _ => none

/-- Events that the episode step loop can emit. -/
def stepOnly (e : Event) : Bool := isEnvStep e || isAdd e

/-- An action vector all of whose coordinates lie in `[-1, 1]`. -/
def clipped (a : Action) : Prop := ∀ x ∈ a, -1 ≤ x ∧ x ≤ 1

/-- The time features of a run of transitions: the first observation carries
feature `c`, each `next_observation` carries the observation's feature plus
`increment`, and the run continues from `c + increment`. -/
def featChain : ℚ → List Transition → Prop
  | _, [] => True
  | c, t :: rest =>
    timeFeature t.observation = c ∧
    timeFeature t.next_observation = c + increment ∧
    featChain (c + increment) rest

/-- Check that every `update` event of a trace is immediately preceded by
its own `sample` event (each optimization step consumes a freshly drawn
batch). -/
def updatesPreceded : List Event → Bool
  | [] => true
  | Event.sample :: Event.update :: rest => updatesPreceded rest
  | Event.update :: _ => false
  | _ :: rest => updatesPreceded rest

/-- A one-step episode script used to instantiate the theorems on concrete
runs: the raw observation is `[0]`, every `env.step` returns observation
`[0]`, reward `1` and `done = true`, and `action_space.sample()` always
returns `[2]` (deliberately outside `[-1, 1]`). -/
def oneStepScript : EpisodeScript :=
  ⟨[0], [fun _ => ⟨[0], 1, true⟩], fun _ => [2]⟩

/-- The environment whose every episode is `oneStepScript`. -/
def constEnv : Env := fun _ => oneStepScript

/-- An agent whose raw action is always `[2]` (deliberately outside
`[-1, 1]`, so that clipping is exercised). -/
def constAgent : Agent := ⟨fun _ _ => [2]⟩

/-! Basic lemmas about the building blocks. -/

theorem clip1_bounds (x : ℚ) : -1 ≤ clip1 x ∧ clip1 x ≤ 1 :=
  ⟨le_max_left _ _, max_le (by norm_num) (min_le_left _ _)⟩

theorem clipAction_clipped (a : Action) : clipped (clipAction a) := by
  intro x hx
  rcases List.mem_map.1 hx with ⟨y, _, rfl⟩
  exact clip1_bounds y

theorem timeFeature_append (o : Obs) (c : ℚ) : timeFeature (o ++ [c]) = c := by
  simp [timeFeature]

theorem addsOf_append (l1 l2 : List Event) :
    addsOf (l1 ++ l2) = addsOf l1 ++ addsOf l2 := by
  simp [addsOf]

theorem length_addsOf (evts : List Event) :
    (addsOf evts).length = evts.countP isAdd := by
  induction evts with
  | nil => rfl
  | cons e rest ih =>
    cases e <;> simp [addsOf, isAdd, List.countP_cons, ih] <;>
      simp [addsOf, isAdd] at ih <;> omega

theorem mem_stepEventsFn {mode : String} {t : Transition} {e : Event}
    (he : e ∈ stepEventsFn mode t) :
    e = Event.envStep t.action ∨ e = Event.add t := by
  by_cases hm : mode = "test" <;> simp [stepEventsFn, hm] at he <;> tauto

theorem countP_envStep_stepEventsFn (mode : String) (t : Transition) :
    (stepEventsFn mode t).countP isEnvStep = 1 := by
  by_cases hm : mode = "test" <;>
    simp [stepEventsFn, hm, List.countP_cons, isEnvStep]

theorem countP_add_stepEventsFn (mode : String) (t : Transition) :
    (stepEventsFn mode t).countP isAdd = if mode = "test" then 0 else 1 := by
  by_cases hm : mode = "test" <;>
    simp [stepEventsFn, hm, List.countP_cons, isAdd]

theorem addsOf_stepEventsFn (mode : String) (t : Transition) :
    addsOf (stepEventsFn mode t) = if mode = "test" then [] else [t] := by
  by_cases hm : mode = "test" <;> simp [stepEventsFn, hm, addsOf]

theorem countP_stepEventsFn_zero (p : Event → Bool)
    (h1 : ∀ a, p (Event.envStep a) = false)
    (h2 : ∀ t, p (Event.add t) = false)
    (mode : String) (t : Transition) :
    (stepEventsFn mode t).countP p = 0 := by
  by_cases hm : mode = "test" <;>
    simp [stepEventsFn, hm, List.countP_cons, h1, h2]

/-! Lemmas about the episode step loop. -/

theorem runEpisodeLoop_countP_zero (agent : Agent) (mode : String)
    (s : Nat → Action) (p : Event → Bool)
    (h1 : ∀ a, p (Event.envStep a) = false)
    (h2 : ∀ t, p (Event.add t) = false) :
    ∀ (steps : List (Action → StepResult)) (rawObs : Obs) (c : ℚ)
      (idx : Nat) (r0 : ℚ) (l0 : Nat),
      (runEpisodeLoop agent mode s rawObs c idx r0 l0 steps).2.countP p = 0 := by
  intro steps
  induction steps with
  | nil => intro rawObs c idx r0 l0; simp [runEpisodeLoop]
  | cons f rest ih =>
    intro rawObs c idx r0 l0
    rcases hdone :
        (f (clipAction (chooseRaw agent mode s idx (rawObs ++ [c])))).done with
      _ | _
    · simp [runEpisodeLoop, hdone, List.countP_append,
        countP_stepEventsFn_zero p h1 h2, ih]
    · simp [runEpisodeLoop, hdone, countP_stepEventsFn_zero p h1 h2]

theorem runEpisodeLoop_envStep_clipped (agent : Agent) (mode : String)
    (s : Nat → Action) :
    ∀ (steps : List (Action → StepResult)) (rawObs : Obs) (c : ℚ)
      (idx : Nat) (r0 : ℚ) (l0 : Nat) (a : Action),
      Event.envStep a ∈ (runEpisodeLoop agent mode s rawObs c idx r0 l0 steps).2 →
      ∃ raw, a = clipAction raw := by
  intro steps
  induction steps with
  | nil => intro rawObs c idx r0 l0 a ha; simp [runEpisodeLoop] at ha
  | cons f rest ih =>
    intro rawObs c idx r0 l0 a ha
    rcases hdone :
        (f (clipAction (chooseRaw agent mode s idx (rawObs ++ [c])))).done with
      _ | _
    · simp only [runEpisodeLoop, hdone] at ha
      rcases List.mem_append.1 ha with h | h
      · rcases mem_stepEventsFn h with h2 | h2
        · exact ⟨chooseRaw agent mode s idx (rawObs ++ [c]),
            by injection h2⟩
        · cases h2
      · exact ih _ _ _ _ _ a h
    · simp only [runEpisodeLoop, hdone, if_true] at ha
      rcases mem_stepEventsFn ha with h2 | h2
      · exact ⟨chooseRaw agent mode s idx (rawObs ++ [c]), by injection h2⟩
      · cases h2

theorem runEpisodeLoop_countP_add_test (agent : Agent) (s : Nat → Action) :
    ∀ (steps : List (Action → StepResult)) (rawObs : Obs) (c : ℚ)
      (idx : Nat) (r0 : ℚ) (l0 : Nat),
      (runEpisodeLoop agent "test" s rawObs c idx r0 l0 steps).2.countP
        isAdd = 0 := by
  intro steps
  induction steps with
  | nil => intro rawObs c idx r0 l0; simp [runEpisodeLoop]
  | cons f rest ih =>
    intro rawObs c idx r0 l0
    rcases hdone :
        (f (clipAction (chooseRaw agent "test" s idx (rawObs ++ [c])))).done with
      _ | _
    · simp [runEpisodeLoop, hdone, List.countP_append,
        countP_add_stepEventsFn, ih]
    · simp [runEpisodeLoop, hdone, countP_add_stepEventsFn]

theorem runEpisodeLoop_countP_add_eq_step (agent : Agent) (mode : String)
    (s : Nat → Action) (hm : mode ≠ "test") :
    ∀ (steps : List (Action → StepResult)) (rawObs : Obs) (c : ℚ)
      (idx : Nat) (r0 : ℚ) (l0 : Nat),
      (runEpisodeLoop agent mode s rawObs c idx r0 l0 steps).2.countP isAdd =
        (runEpisodeLoop agent mode s rawObs c idx r0 l0 steps).2.countP
          isEnvStep := by
  intro steps
  induction steps with
  | nil => intro rawObs c idx r0 l0; simp [runEpisodeLoop]
  | cons f rest ih =>
    intro rawObs c idx r0 l0
    rcases hdone :
        (f (clipAction (chooseRaw agent mode s idx (rawObs ++ [c])))).done with
      _ | _
    · simp [runEpisodeLoop, hdone, List.countP_append,
        countP_add_stepEventsFn, countP_envStep_stepEventsFn, hm, ih]
    · simp [runEpisodeLoop, hdone, countP_add_stepEventsFn,
        countP_envStep_stepEventsFn, hm]

theorem runEpisodeLoop_length (agent : Agent) (mode : String)
    (s : Nat → Action) :
    ∀ (steps : List (Action → StepResult)) (rawObs : Obs) (c : ℚ)
      (idx : Nat) (r0 : ℚ) (l0 : Nat) (ret : ℚ) (len : Nat),
      (runEpisodeLoop agent mode s rawObs c idx r0 l0 steps).1 =
        some (ret, len) →
      len = l0 + (runEpisodeLoop agent mode s rawObs c idx r0 l0
          steps).2.countP isEnvStep ∧
      1 ≤ (runEpisodeLoop agent mode s rawObs c idx r0 l0 steps).2.countP
        isEnvStep := by
  intro steps
  induction steps with
  | nil => intro rawObs c idx r0 l0 ret len h; simp [runEpisodeLoop] at h
  | cons f rest ih =>
    intro rawObs c idx r0 l0 ret len h
    rcases hdone :
        (f (clipAction (chooseRaw agent mode s idx (rawObs ++ [c])))).done with
      _ | _
    · simp only [runEpisodeLoop, hdone] at h ⊢
      rcases ih _ _ _ _ _ ret len h with ⟨h1, h2⟩
      simp only [Bool.false_eq_true, if_false, List.countP_append,
        countP_envStep_stepEventsFn]
      omega
    · simp only [runEpisodeLoop, hdone, if_true, Option.some.injEq,
        Prod.mk.injEq] at h ⊢
      simp only [countP_envStep_stepEventsFn]
      omega

theorem addsOf_runEpisodeLoop_test (agent : Agent) (s : Nat → Action)
    (steps : List (Action → StepResult)) (rawObs : Obs) (c : ℚ)
    (idx : Nat) (r0 : ℚ) (l0 : Nat) :
    addsOf (runEpisodeLoop agent "test" s rawObs c idx r0 l0 steps).2 = [] := by
  have h := runEpisodeLoop_countP_add_test agent s steps rawObs c idx r0 l0
  rw [← length_addsOf] at h
  exact List.length_eq_zero.1 h

theorem runEpisodeLoop_featChain (agent : Agent) (mode : String)
    (s : Nat → Action) :
    ∀ (steps : List (Action → StepResult)) (rawObs : Obs) (c : ℚ)
      (idx : Nat) (r0 : ℚ) (l0 : Nat),
      featChain c
        (addsOf (runEpisodeLoop agent mode s rawObs c idx r0 l0 steps).2) := by
  intro steps
  induction steps with
  | nil => intro rawObs c idx r0 l0; simp [runEpisodeLoop, addsOf, featChain]
  | cons f rest ih =>
    intro rawObs c idx r0 l0
    rcases hdone :
        (f (clipAction (chooseRaw agent mode s idx (rawObs ++ [c])))).done with
      _ | _
    · by_cases hm : mode = "test"
      · subst hm
        rw [addsOf_runEpisodeLoop_test]
        simp [featChain]
      · simp only [runEpisodeLoop, hdone, Bool.false_eq_true, if_false,
          addsOf_append, addsOf_stepEventsFn, hm]
        simp only [if_neg hm, List.cons_append, List.nil_append, featChain]
        exact ⟨timeFeature_append _ _, timeFeature_append _ _, ih _ _ _ _ _⟩
    · by_cases hm : mode = "test"
      · subst hm
        rw [addsOf_runEpisodeLoop_test]
        simp [featChain]
      · simp only [runEpisodeLoop, hdone, if_true, addsOf_stepEventsFn, hm]
        simp only [if_neg hm, featChain]
        exact ⟨timeFeature_append _ _, timeFeature_append _ _, trivial⟩

theorem featChain_next :
    ∀ (l : List Transition) (c : ℚ), featChain c l →
      ∀ t ∈ l, timeFeature t.next_observation =
        timeFeature t.observation + increment := by
  intro l
  induction l with
  | nil => intro c _ t ht; cases ht
  | cons t0 rest ih =>
    intro c hc t ht
    rcases hc with ⟨h1, h2, h3⟩
    rcases List.mem_cons.1 ht with rfl | ht2
    · rw [h1, h2]
    · exact ih _ h3 t ht2

theorem featChain_get :
    ∀ (l : List Transition) (c : ℚ), featChain c l →
      ∀ (j : Nat) (h : j < l.length),
        timeFeature (l.get ⟨j, h⟩).observation = c + j * increment := by
  intro l
  induction l with
  | nil => intro c _ j h; cases h
  | cons t0 rest ih =>
    intro c hc j h
    rcases hc with ⟨h1, _, h3⟩
    cases j with
    | zero => simpa using h1
    | succ j2 =>
      have := ih _ h3 j2 (by simpa using Nat.lt_of_succ_lt_succ h)
      simp only [List.get] at this ⊢
      rw [this]
      push_cast
      ring

/-! Lemmas about `run_episode`. -/

theorem run_episode_assertion (agent : Agent) (script : EpisodeScript)
    (mode : String) :
    run_episode agent script mode = RunResult.assertionError ↔
      ¬(mode = "train" ∨ mode = "test" ∨ mode = "random") := by
  by_cases hv : mode = "train" ∨ mode = "test" ∨ mode = "random"
  · simp only [run_episode, if_pos hv]
    constructor
    · intro h
      rcases hr : (runEpisodeLoop agent mode script.actionSample script.init
          0 0 0 0 script.stepFns).1 with _ | ⟨r, l⟩ <;>
        rw [hr] at h <;> exact RunResult.noConfusion h
    · intro h; exact absurd hv h
  · simp only [run_episode, if_neg hv]
    exact ⟨fun _ => hv, fun _ => trivial⟩

theorem run_episode_finished_inv {agent : Agent} {script : EpisodeScript}
    {mode : String} {ret : ℚ} {len : Nat} {evts : List Event}
    (h : run_episode agent script mode = .finished ret len evts) :
    (runEpisodeLoop agent mode script.actionSample script.init 0 0 0 0
        script.stepFns).1 = some (ret, len) ∧
    evts = Event.reset mode ::
      (runEpisodeLoop agent mode script.actionSample script.init 0 0 0 0
        script.stepFns).2 := by
  by_cases hv : mode = "train" ∨ mode = "test" ∨ mode = "random"
  · simp only [run_episode, if_pos hv] at h
    rcases hr : (runEpisodeLoop agent mode script.actionSample script.init
        0 0 0 0 script.stepFns).1 with _ | ⟨r, l⟩
    · rw [hr] at h; exact RunResult.noConfusion h
    · rw [hr] at h
      simp only [RunResult.finished.injEq] at h
      rcases h with ⟨rfl, rfl, rfl⟩
      exact ⟨rfl, rfl⟩
  · simp only [run_episode, if_neg hv] at h
    exact RunResult.noConfusion h

theorem run_episode_diverged_inv {agent : Agent} {script : EpisodeScript}
    {mode : String} {evts : List Event}
    (h : run_episode agent script mode = .diverged evts) :
    evts = Event.reset mode ::
      (runEpisodeLoop agent mode script.actionSample script.init 0 0 0 0
        script.stepFns).2 := by
  by_cases hv : mode = "train" ∨ mode = "test" ∨ mode = "random"
  · simp only [run_episode, if_pos hv] at h
    rcases hr : (runEpisodeLoop agent mode script.actionSample script.init
        0 0 0 0 script.stepFns).1 with _ | ⟨r, l⟩
    · rw [hr] at h
      simp only [RunResult.diverged.injEq] at h
      exact h.symm
    · rw [hr] at h
      exact RunResult.noConfusion h
  · simp only [run_episode, if_neg hv] at h
    exact RunResult.noConfusion h

theorem finished_eta (res : RunResult) (h : isFinished res = true) :
    res = RunResult.finished (returnOf res) (lengthOf res) (eventsOf res) := by
  cases res with
  | assertionError => simp [isFinished] at h
  | diverged e => simp [isFinished] at h
  | finished r l e => rfl

theorem run_episode_countP_zero {agent : Agent} {script : EpisodeScript}
    {mode : String} {ret : ℚ} {len : Nat} {evts : List Event}
    (h : run_episode agent script mode = .finished ret len evts)
    (p : Event → Bool)
    (h0 : ∀ m, p (Event.reset m) = false)
    (h1 : ∀ a, p (Event.envStep a) = false)
    (h2 : ∀ t, p (Event.add t) = false) :
    evts.countP p = 0 := by
  rcases run_episode_finished_inv h with ⟨_, rfl⟩
  simp [List.countP_cons, h0,
    runEpisodeLoop_countP_zero agent mode script.actionSample p h1 h2]

theorem run_episode_resetCount {agent : Agent} {script : EpisodeScript}
    {mode : String} {ret : ℚ} {len : Nat} {evts : List Event}
    (h : run_episode agent script mode = .finished ret len evts)
    (m : String) :
    resetCount m evts = if mode = m then 1 else 0 := by
  rcases run_episode_finished_inv h with ⟨_, rfl⟩
  have hz := runEpisodeLoop_countP_zero agent mode script.actionSample
    (isResetOf m) (fun _ => rfl) (fun _ => rfl) script.stepFns script.init
    0 0 0 0
  simp only [resetCount, List.countP_cons, hz, isResetOf]
  by_cases hm : mode = m <;> simp [hm]

theorem run_episode_length {agent : Agent} {script : EpisodeScript}
    {mode : String} {ret : ℚ} {len : Nat} {evts : List Event}
    (h : run_episode agent script mode = .finished ret len evts) :
    1 ≤ len ∧ len = evts.countP isEnvStep := by
  rcases run_episode_finished_inv h with ⟨h1, rfl⟩
  rcases runEpisodeLoop_length agent mode script.actionSample script.stepFns
    script.init 0 0 0 0 ret len h1 with ⟨h2, h3⟩
  constructor
  · omega
  · simp [List.countP_cons, isEnvStep]
    omega

theorem run_episode_adds_test {agent : Agent} {script : EpisodeScript}
    {ret : ℚ} {len : Nat} {evts : List Event}
    (h : run_episode agent script "test" = .finished ret len evts) :
    evts.countP isAdd = 0 := by
  rcases run_episode_finished_inv h with ⟨_, rfl⟩
  simp [List.countP_cons, isAdd,
    runEpisodeLoop_countP_add_test agent script.actionSample]

theorem run_episode_adds_count {agent : Agent} {script : EpisodeScript}
    {mode : String} {ret : ℚ} {len : Nat} {evts : List Event}
    (h : run_episode agent script mode = .finished ret len evts)
    (hm : mode ≠ "test") :
    evts.countP isAdd = len := by
  rcases run_episode_finished_inv h with ⟨h1, rfl⟩
  rcases runEpisodeLoop_length agent mode script.actionSample script.stepFns
    script.init 0 0 0 0 ret len h1 with ⟨h2, _⟩
  have h3 := runEpisodeLoop_countP_add_eq_step agent mode script.actionSample
    hm script.stepFns script.init 0 0 0 0
  simp [List.countP_cons, isAdd]
  omega

theorem run_episode_featChain {agent : Agent} {script : EpisodeScript}
    {mode : String} {ret : ℚ} {len : Nat} {evts : List Event}
    (h : run_episode agent script mode = .finished ret len evts) :
    featChain 0 (addsOf evts) := by
  rcases run_episode_finished_inv h with ⟨_, rfl⟩
  have := runEpisodeLoop_featChain agent mode script.actionSample
    script.stepFns script.init 0 0 0 0
  simpa [addsOf] using this

theorem run_episode_clipped {agent : Agent} {script : EpisodeScript}
    {mode : String} {ret : ℚ} {len : Nat} {evts : List Event}
    (h : run_episode agent script mode = .finished ret len evts)
    (a : Action) (ha : Event.envStep a ∈ evts) : ∃ raw, a = clipAction raw := by
  rcases run_episode_finished_inv h with ⟨_, rfl⟩
  rcases List.mem_cons.1 ha with h2 | h2
  · exact Event.noConfusion h2
  · exact runEpisodeLoop_envStep_clipped agent mode script.actionSample
      script.stepFns script.init 0 0 0 0 a h2

/-! Lemmas about `run_policy`. -/

theorem resetCount_append (m : String) (l1 l2 : List Event) :
    resetCount m (l1 ++ l2) = resetCount m l1 + resetCount m l2 := by
  simp [resetCount]

theorem run_policy_inv (env : Env) (agent : Agent) (mode : String) :
    ∀ (n epIdx : Nat) (rets : List ℚ) (steps : Nat) (evts : List Event),
      run_policy env agent mode n epIdx = some (rets, steps, evts) →
      rets.length = n ∧
      (∀ p : Event → Bool, (∀ m, p (Event.reset m) = false) →
        (∀ a, p (Event.envStep a) = false) →
        (∀ t, p (Event.add t) = false) → evts.countP p = 0) ∧
      (∀ m, resetCount m evts = if mode = m then n else 0) ∧
      n ≤ steps ∧
      (mode = "test" → evts.countP isAdd = 0) ∧
      (mode ≠ "test" → evts.countP isAdd = steps) := by
  intro n
  induction n with
  | zero =>
    intro epIdx rets steps evts h
    simp only [run_policy, Option.some.injEq, Prod.mk.injEq] at h
    rcases h with ⟨rfl, rfl, rfl⟩
    simp [resetCount]
  | succ k ih =>
    intro epIdx rets steps evts h
    rcases he : run_episode agent (env epIdx) mode with _ | e1 | ⟨ret, len, evts1⟩
    · simp [run_policy, he] at h
    · simp [run_policy, he] at h
    · rcases hp : run_policy env agent mode k (epIdx + 1) with _ | ⟨rets2, steps2, evts2⟩
      · simp [run_policy, he, hp] at h
      · simp only [run_policy, he, hp, Option.some.injEq, Prod.mk.injEq] at h
        rcases h with ⟨rfl, rfl, rfl⟩
        rcases ih (epIdx + 1) rets2 steps2 evts2 hp with
          ⟨ih1, ih2, ih3, ih4, ih5, ih6⟩
        have hlen := run_episode_length he
        refine ⟨by simp [ih1], ?_, ?_, by omega, ?_, ?_⟩
        · intro p h0 h1 h2
          rw [List.countP_append, run_episode_countP_zero he p h0 h1 h2,
            ih2 p h0 h1 h2]
        · intro m
          rw [resetCount_append, run_episode_resetCount he m, ih3 m]
          by_cases hm : mode = m
          · simp only [hm, if_true, if_pos rfl]
            omega
          · simp [hm]
        · intro hm
          rw [List.countP_append, run_episode_adds_test (hm ▸ he), ih5 hm]
        · intro hm
          rw [List.countP_append, run_episode_adds_count he hm, ih6 hm]

/-! Lemmas about the sample/update epoch loop and `updatesPreceded`. -/

theorem countP_sampleUpdateSeq_update :
    ∀ n, (sampleUpdateSeq n).countP isUpdate = n := by
  intro n
  induction n with
  | zero => rfl
  | succ k ih => simp [sampleUpdateSeq, List.countP_cons, isUpdate, isSample, ih]

theorem countP_sampleUpdateSeq_sample :
    ∀ n, (sampleUpdateSeq n).countP isSample = n := by
  intro n
  induction n with
  | zero => rfl
  | succ k ih => simp [sampleUpdateSeq, List.countP_cons, isUpdate, isSample, ih]

theorem countP_sampleUpdateSeq_zero (p : Event → Bool)
    (hs : p Event.sample = false) (hu : p Event.update = false) :
    ∀ n, (sampleUpdateSeq n).countP p = 0 := by
  intro n
  induction n with
  | zero => rfl
  | succ k ih => simp [sampleUpdateSeq, List.countP_cons, hs, hu, ih]

theorem updatesPreceded_append_pure :
    ∀ (xs ys : List Event),
      (∀ e ∈ xs, isSample e = false ∧ isUpdate e = false) →
      updatesPreceded (xs ++ ys) = updatesPreceded ys := by
  intro xs
  induction xs with
  | nil => intro ys _; rfl
  | cons x rest ih =>
    intro ys hx
    have hxr : ∀ e ∈ rest, isSample e = false ∧ isUpdate e = false :=
      fun e he => hx e (List.mem_cons_of_mem x he)
    have hx0 := hx x (List.mem_cons_self x rest)
    cases x with
    | sample => simp [isSample] at hx0
    | update => simp [isUpdate] at hx0
    | reset m => simpa [updatesPreceded] using ih ys hxr
    | envStep a => simpa [updatesPreceded] using ih ys hxr
    | add t => simpa [updatesPreceded] using ih ys hxr
    | alignTarget => simpa [updatesPreceded] using ih ys hxr
    | logTrain a v => simpa [updatesPreceded] using ih ys hxr
    | tabular i e2 s2 a v => simpa [updatesPreceded] using ih ys hxr

theorem updatesPreceded_sampleUpdateSeq :
    ∀ (n : Nat) (ys : List Event),
      updatesPreceded (sampleUpdateSeq n ++ ys) = updatesPreceded ys := by
  intro n
  induction n with
  | zero => intro ys; rfl
  | succ k ih => intro ys; simpa [sampleUpdateSeq, updatesPreceded] using ih ys

/-! Lemmas about one training block. -/

theorem modeTrain_ne_test : modeTrain ≠ "test" := by decide

theorem trainBlock_inv {env : Env} {agent : Agent} {b epIdx : Nat}
    {evts : List Event} {steps : Nat}
    (h : trainBlock env agent b epIdx = some (evts, steps)) :
    ∃ (rets : List ℚ) (E : List Event),
      run_policy env agent modeTrain b epIdx = some (rets, steps, E) ∧
      evts = E ++ Event.logTrain (npMean rets) (npVariance rets) ::
        sampleUpdateSeq (steps / b) := by
  rcases hp : run_policy env agent modeTrain b epIdx with _ | ⟨rets, steps2, E⟩
  · simp [trainBlock, hp] at h
  · simp only [trainBlock, hp, Option.some.injEq, Prod.mk.injEq] at h
    rcases h with ⟨rfl, rfl⟩
    exact ⟨rets, E, rfl, rfl⟩

theorem resetCount_logSeq (m : String) (a v : ℚ) (n : Nat) :
    resetCount m (Event.logTrain a v :: sampleUpdateSeq n) = 0 := by
  simp [resetCount, List.countP_cons,
    countP_sampleUpdateSeq_zero (isResetOf m) rfl rfl, isResetOf]

theorem trainBlock_counts {env : Env} {agent : Agent} {b epIdx : Nat}
    {evts : List Event} {steps : Nat}
    (h : trainBlock env agent b epIdx = some (evts, steps)) :
    b ≤ steps ∧
    resetCount modeTrain evts = b ∧
    resetCount modeTest evts = 0 ∧
    resetCount modeRandom evts = 0 ∧
    evts.countP isUpdate = steps / b ∧
    evts.countP isSample = steps / b ∧
    evts.countP isTabular = 0 ∧
    evts.countP isAlign = 0 ∧
    evts.countP isLogTrain = 1 := by
  rcases trainBlock_inv h with ⟨rets, E, hp, rfl⟩
  rcases run_policy_inv env agent modeTrain b epIdx rets steps E hp with
    ⟨_, hgen, hres, hsteps, _, _⟩
  refine ⟨hsteps, ?_, ?_, ?_, ?_, ?_, ?_, ?_, ?_⟩
  · rw [resetCount_append, hres modeTrain, resetCount_logSeq, if_pos rfl]
    omega
  · rw [resetCount_append, hres modeTest, resetCount_logSeq,
      if_neg (by decide)]
  · rw [resetCount_append, hres modeRandom, resetCount_logSeq,
      if_neg (by decide)]
  · rw [List.countP_append,
      hgen isUpdate (fun _ => rfl) (fun _ => rfl) (fun _ => rfl),
      List.countP_cons, countP_sampleUpdateSeq_update]
    simp [isUpdate]
  · rw [List.countP_append,
      hgen isSample (fun _ => rfl) (fun _ => rfl) (fun _ => rfl),
      List.countP_cons, countP_sampleUpdateSeq_sample]
    simp [isSample]
  · rw [List.countP_append,
      hgen isTabular (fun _ => rfl) (fun _ => rfl) (fun _ => rfl),
      List.countP_cons, countP_sampleUpdateSeq_zero isTabular rfl rfl]
    simp [isTabular]
  · rw [List.countP_append,
      hgen isAlign (fun _ => rfl) (fun _ => rfl) (fun _ => rfl),
      List.countP_cons, countP_sampleUpdateSeq_zero isAlign rfl rfl]
    simp [isAlign]
  · rw [List.countP_append,
      hgen isLogTrain (fun _ => rfl) (fun _ => rfl) (fun _ => rfl),
      List.countP_cons, countP_sampleUpdateSeq_zero isLogTrain rfl rfl]
    simp [isLogTrain]

theorem trainBlock_updatesPreceded {env : Env} {agent : Agent}
    {b epIdx : Nat} {evts : List Event} {steps : Nat}
    (h : trainBlock env agent b epIdx = some (evts, steps)) :
    ∀ ys, updatesPreceded (evts ++ ys) = updatesPreceded ys := by
  rcases trainBlock_inv h with ⟨rets, E, hp, rfl⟩
  rcases run_policy_inv env agent modeTrain b epIdx rets steps E hp with
    ⟨_, hgen, _, _, _, _⟩
  intro ys
  have hEs : E.countP isSample = 0 :=
    hgen isSample (fun _ => rfl) (fun _ => rfl) (fun _ => rfl)
  have hEu : E.countP isUpdate = 0 :=
    hgen isUpdate (fun _ => rfl) (fun _ => rfl) (fun _ => rfl)
  have hpure : ∀ e ∈ E, isSample e = false ∧ isUpdate e = false := by
    intro e he
    constructor
    · have := (List.countP_eq_zero.1 hEs) e he
      simpa using this
    · have := (List.countP_eq_zero.1 hEu) e he
      simpa using this
  rw [List.append_assoc, updatesPreceded_append_pure E _ hpure]
  simp only [List.cons_append, updatesPreceded]
  exact updatesPreceded_sampleUpdateSeq _ ys


/-! Lemmas about the inner training loop. -/

theorem innerLoop_inv (env : Env) (agent : Agent) (b : Nat) :
    ∀ (k epIdx curE curS : Nat) (evts : List Event) (a e s : Nat),
      innerLoop env agent b k epIdx curE curS = some (evts, a, e, s) →
      a = epIdx + k * b ∧ e = curE + k * b ∧ curS ≤ s ∧
      resetCount modeTrain evts = k * b ∧
      resetCount modeTest evts = 0 ∧
      resetCount modeRandom evts = 0 ∧
      evts.countP isTabular = 0 ∧
      evts.countP isAlign = 0 ∧
      evts.countP isLogTrain = k ∧
      evts.countP isSample = evts.countP isUpdate ∧
      (∀ ys, updatesPreceded (evts ++ ys) = updatesPreceded ys) := by
  intro k
  induction k with
  | zero =>
    intro epIdx curE curS evts a e s h
    simp only [innerLoop, Option.some.injEq, Prod.mk.injEq] at h
    rcases h with ⟨rfl, rfl, rfl, rfl⟩
    simp [resetCount]
  | succ k2 ih =>
    intro epIdx curE curS evts a e s h
    rcases hb : trainBlock env agent b epIdx with _ | ⟨evts1, steps1⟩
    · simp [innerLoop, hb] at h
    · rcases hi : innerLoop env agent b k2 (epIdx + b) (curE + b)
          (curS + steps1) with _ | ⟨evts2, a2, e2, s2⟩
      · simp [innerLoop, hb, hi] at h
      · simp only [innerLoop, hb, hi, Option.some.injEq, Prod.mk.injEq] at h
        rcases h with ⟨rfl, rfl, rfl, rfl⟩
        rcases ih (epIdx + b) (curE + b) (curS + steps1) evts2 a2 e2 s2 hi with
          ⟨ha, he, hs, h1, h2, h3, h4, h5, h6, h7, h8⟩
        rcases trainBlock_counts hb with
          ⟨hb1, hb2, hb3, hb4, hb5, hb6, hb7, hb8, hb9⟩
        rw [Nat.succ_mul]
        refine ⟨by omega, by omega, by omega, ?_, ?_, ?_, ?_, ?_, ?_, ?_, ?_⟩
        · rw [resetCount_append, hb2, h1]; omega
        · rw [resetCount_append, hb3, h2]
        · rw [resetCount_append, hb4, h3]
        · rw [List.countP_append, hb7, h4]
        · rw [List.countP_append, hb8, h5]
        · rw [List.countP_append, hb9, h6]; omega
        · rw [List.countP_append, List.countP_append, hb5, hb6, h7]
        · intro ys
          rw [List.append_assoc, trainBlock_updatesPreceded hb, h8]

/-! Lemmas about the outer evaluation loop. -/

theorem outerLoop_succ_inv {env : Env} {agent : Agent}
    {f b n iterIdx epIdx curE curS : Nat} {evts : List Event} {a e s : Nat}
    (h : outerLoop env agent f b (n + 1) iterIdx epIdx curE curS =
      some (evts, a, e, s)) :
    ∃ (evtsI : List Event) (epIdx1 e1 s1 : Nat) (returns : List ℚ)
      (stepsT : Nat) (evtsT evtsR : List Event),
      innerLoop env agent b f epIdx curE curS = some (evtsI, epIdx1, e1, s1) ∧
      e1 = curE + f * b ∧ curS ≤ s1 ∧
      run_policy env agent modeTest num_test_episodes epIdx1 =
        some (returns, stepsT, evtsT) ∧
      outerLoop env agent f b n (iterIdx + 1) (epIdx1 + num_test_episodes)
        e1 s1 = some (evtsR, a, e, s) ∧
      evts = evtsI ++ evtsT ++ Event.tabular iterIdx e1 s1 (npMean returns)
        (npVariance returns) :: evtsR := by
  rcases hi : innerLoop env agent b f epIdx curE curS with
    _ | ⟨evtsI, epIdx1, e1, s1⟩
  · simp [outerLoop, hi] at h
  · rcases ht : run_policy env agent modeTest num_test_episodes epIdx1 with
      _ | ⟨returns, stepsT, evtsT⟩
    · simp [outerLoop, hi, ht] at h
    · rcases hr : outerLoop env agent f b n (iterIdx + 1)
          (epIdx1 + num_test_episodes) e1 s1 with _ | ⟨evtsR, a2, e2, s2⟩
      · simp [outerLoop, hi, ht, hr] at h
      · simp only [outerLoop, hi, ht, hr, Option.some.injEq,
          Prod.mk.injEq] at h
        rcases h with ⟨rfl, rfl, rfl, rfl⟩
        rcases innerLoop_inv env agent b f epIdx curE curS evtsI epIdx1 e1 s1
          hi with ⟨_, he1, hs1, _⟩
        exact ⟨evtsI, epIdx1, e1, s1, returns, stepsT, evtsT, evtsR, rfl,
          he1, hs1, ht, hr, rfl⟩

theorem outerLoop_inv (env : Env) (agent : Agent) (f b : Nat) :
    ∀ (iters iterIdx epIdx curE curS : Nat) (evts : List Event) (a e s : Nat),
      outerLoop env agent f b iters iterIdx epIdx curE curS =
        some (evts, a, e, s) →
      curS ≤ s ∧
      evts.countP isAlign = 0 ∧
      resetCount modeRandom evts = 0 ∧
      resetCount modeTrain evts = iters * (f * b) ∧
      resetCount modeTest evts = iters * num_test_episodes ∧
      evts.countP isLogTrain = iters * f ∧
      evts.countP isTabular = iters ∧
      evts.countP isSample = evts.countP isUpdate ∧
      (∀ ys, updatesPreceded (evts ++ ys) = updatesPreceded ys) := by
  intro iters
  induction iters with
  | zero =>
    intro iterIdx epIdx curE curS evts a e s h
    simp only [outerLoop, Option.some.injEq, Prod.mk.injEq] at h
    rcases h with ⟨rfl, rfl, rfl, rfl⟩
    simp [resetCount]
  | succ n ih =>
    intro iterIdx epIdx curE curS evts a e s h
    rcases outerLoop_succ_inv h with
      ⟨evtsI, epIdx1, e1, s1, returns, stepsT, evtsT, evtsR, hi, he1, hs1,
        ht, hr, rfl⟩
    rcases innerLoop_inv env agent b f epIdx curE curS evtsI epIdx1 e1 s1 hi
      with ⟨_, _, _, hi1, hi2, hi3, hi4, hi5, hi6, hi7, hi8⟩
    rcases run_policy_inv env agent modeTest num_test_episodes epIdx1 returns
      stepsT evtsT ht with ⟨_, htgen, htres, _, _, _⟩
    rcases ih (iterIdx + 1) (epIdx1 + num_test_episodes) e1 s1 evtsR a e s hr
      with ⟨ho0, ho1, ho2, ho3, ho4, ho5, ho6, ho7, ho8⟩
    have hTs : evtsT.countP isSample = 0 :=
      htgen isSample (fun _ => rfl) (fun _ => rfl) (fun _ => rfl)
    have hTu : evtsT.countP isUpdate = 0 :=
      htgen isUpdate (fun _ => rfl) (fun _ => rfl) (fun _ => rfl)
    have hTpure : ∀ x ∈ evtsT, isSample x = false ∧ isUpdate x = false := by
      intro x hx
      constructor
      · have := (List.countP_eq_zero.1 hTs) x hx
        simpa using this
      · have := (List.countP_eq_zero.1 hTu) x hx
        simpa using this
    rw [Nat.succ_mul, Nat.succ_mul, Nat.succ_mul]
    simp only [resetCount] at hi1 hi2 hi3 ho2 ho3 ho4 htres ⊢
    refine ⟨by omega, ?_, ?_, ?_, ?_, ?_, ?_, ?_, ?_⟩
    · simp [List.countP_append, List.countP_cons, isAlign, hi5, ho1,
        htgen isAlign (fun _ => rfl) (fun _ => rfl) (fun _ => rfl)]
    · simp [List.countP_append, List.countP_cons, isResetOf, hi3, ho2,
        htres modeRandom, if_neg (show ¬(modeTest = modeRandom) by decide)]
    · simp [List.countP_append, List.countP_cons, isResetOf, hi1, ho3,
        htres modeTrain, if_neg (show ¬(modeTest = modeTrain) by decide)]
      all_goals omega
    · simp [List.countP_append, List.countP_cons, isResetOf, hi2, ho4,
        htres modeTest, if_pos (rfl : modeTest = modeTest)]
      all_goals omega
    · simp [List.countP_append, List.countP_cons, isLogTrain, hi6, ho5,
        htgen isLogTrain (fun _ => rfl) (fun _ => rfl) (fun _ => rfl)]
      all_goals omega
    · simp [List.countP_append, List.countP_cons, isTabular, hi4, ho6,
        htgen isTabular (fun _ => rfl) (fun _ => rfl) (fun _ => rfl)]
    · simp [List.countP_append, List.countP_cons, isSample, isUpdate, hTs,
        hTu, ho7, hi7]
    · intro ys
      rw [List.append_assoc, List.append_assoc, hi8,
        updatesPreceded_append_pure evtsT _ hTpure]
      simp only [List.cons_append, updatesPreceded]
      exact ho8 ys

/-! Inversion of the `train` orchestrator. -/

theorem train_inv {env : Env} {agent : Agent}
    {start_episodes num_episodes eval_freq batch_size : Nat}
    {evts : List Event}
    (h : train env agent start_episodes num_episodes eval_freq batch_size =
      some evts) :
    ∃ (warmRets : List ℚ) (warmSteps : Nat) (warmEvts loopEvts : List Event)
      (a e s : Nat),
      run_policy env agent modeRandom start_episodes 0 =
        some (warmRets, warmSteps, warmEvts) ∧
      outerLoop env agent eval_freq batch_size (num_episodes / eval_freq) 0
        start_episodes 0 0 = some (loopEvts, a, e, s) ∧
      evts = Event.alignTarget :: (warmEvts ++ loopEvts) := by
  rcases hw : run_policy env agent modeRandom start_episodes 0 with
    _ | ⟨warmRets, warmSteps, warmEvts⟩
  · simp [train, hw] at h
  · rcases ho : outerLoop env agent eval_freq batch_size
        (num_episodes / eval_freq) 0 start_episodes 0 0 with
      _ | ⟨loopEvts, a, e, s⟩
    · simp [train, hw, ho] at h
    · simp only [train, hw, ho, Option.some.injEq] at h
      exact ⟨warmRets, warmSteps, warmEvts, loopEvts, a, e, s, rfl, rfl,
        h.symm⟩

/-! The claims. -/

/-- C2: for every transition of a batch passed to the agent's `update`, the
bootstrapped critic target is
`target_q = reward + γ * (1 - done) * target_critic(s2, target_actor(s2))`;
in particular, for a terminal transition (`done = 1`) the target equals the
reward exactly, with no next-state contribution. -/
theorem claim_C2 :
    (∀ gamma reward done q_next : ℚ,
      target_q gamma reward done q_next =
        reward + gamma * (1 - done) * q_next) ∧
    (∀ gamma reward q_next : ℚ, target_q gamma reward 1 q_next = reward) ∧
    (∀ (gamma : ℚ) (rows : List (ℚ × ℚ × ℚ)),
      ddpgTargets gamma rows =
        rows.map fun r => target_q gamma r.1 r.2.1 r.2.2) := by
  refine ⟨fun _ _ _ _ => rfl, fun gamma reward q_next => ?_, fun _ _ => rfl⟩
  simp [target_q]

/-- C3: for every transition appended to the replay buffer by
`run_episode`, the time-step feature of `next_observation` equals the
feature of `observation` plus the fixed increment `1e-3`, and the `j`-th
appended transition of the episode carries feature `j * 1e-3` on its
observation — so the feature is `0.0` on the first observation of every
episode and is reset only at episode boundaries. -/
theorem claim_C3 (agent : Agent) (script : EpisodeScript) (mode : String) :
    (∀ t ∈ addsOf (eventsOf (run_episode agent script mode)),
      timeFeature t.next_observation = timeFeature t.observation + increment) ∧
    (∀ (j : Nat)
      (hj : j < (addsOf (eventsOf (run_episode agent script mode))).length),
      timeFeature ((addsOf (eventsOf (run_episode agent script mode))).get
        ⟨j, hj⟩).observation = j * increment) := by
  have hfc : featChain 0 (addsOf (eventsOf (run_episode agent script mode))) := by
    rcases hres : run_episode agent script mode with _ | evts | ⟨ret, len, evts⟩
    · simp [eventsOf, addsOf, featChain]
    · have h2 := run_episode_diverged_inv hres
      simp only [eventsOf]
      rw [h2]
      have := runEpisodeLoop_featChain agent mode script.actionSample
        script.stepFns script.init 0 0 0 0
      simpa [addsOf] using this
    · have := run_episode_featChain hres
      simpa [eventsOf] using this
  exact ⟨fun t ht => featChain_next _ 0 hfc t ht,
    fun j hj => by simpa using featChain_get _ 0 hfc j hj⟩

/-- Witness for C3 on a concrete one-step episode in `train` mode. -/
theorem claim_C3_witness :
    (∀ t ∈ addsOf (eventsOf (run_episode constAgent oneStepScript modeTrain)),
      timeFeature t.next_observation = timeFeature t.observation + increment) ∧
    timeFeature ((addsOf (eventsOf (run_episode constAgent oneStepScript
      modeTrain))).get ⟨0, by decide⟩).observation = 0 * increment :=
  ⟨(claim_C3 constAgent oneStepScript modeTrain).1,
   (claim_C3 constAgent oneStepScript modeTrain).2 0 (by decide)⟩

/-- C4: in every mode, every action vector sent to the environment's `step`
by `run_episode` lies within `[-1, 1]` in every dimension, whatever the raw
actor output, the injected noise, or the action-space sample was. -/
theorem claim_C4 (agent : Agent) (script : EpisodeScript) (mode : String)
    (a : Action)
    (ha : Event.envStep a ∈ eventsOf (run_episode agent script mode)) :
    ∀ x ∈ a, -1 ≤ x ∧ x ≤ 1 := by
  have hcl : ∃ raw, a = clipAction raw := by
    rcases hres : run_episode agent script mode with _ | evts | ⟨ret, len, evts⟩
    · rw [hres] at ha
      simp [eventsOf] at ha
    · rw [hres] at ha
      have h2 := run_episode_diverged_inv hres
      simp only [eventsOf] at ha
      rw [h2] at ha
      rcases List.mem_cons.1 ha with h3 | h3
      · exact Event.noConfusion h3
      · exact runEpisodeLoop_envStep_clipped agent mode script.actionSample
          script.stepFns script.init 0 0 0 0 a h3
    · rw [hres] at ha
      exact run_episode_clipped hres a (by simpa [eventsOf] using ha)
  rcases hcl with ⟨raw, rfl⟩
  exact clipAction_clipped raw

/-- Witness for C4: the concrete agent outputs `[2]`, the action that
actually reached `env.step` is `[1]`, and its coordinate is in bounds. -/
theorem claim_C4_witness : -1 ≤ (1 : ℚ) ∧ (1 : ℚ) ≤ 1 :=
  claim_C4 constAgent oneStepScript modeTrain [1] (by decide) 1 (by decide)

/-- C8: `run_episode` raises an assertion error exactly for modes outside
`{train, test, random}`; for a mode inside the set the assertion branch is
unreachable and the episode loop runs normally. -/
theorem claim_C8 (agent : Agent) (script : EpisodeScript) (mode : String) :
    (run_episode agent script mode = RunResult.assertionError ↔
      ¬(mode = modeTrain ∨ mode = modeTest ∨ mode = modeRandom)) ∧
    ((mode = modeTrain ∨ mode = modeTest ∨ mode = modeRandom) →
      run_episode agent script mode ≠ RunResult.assertionError ∧
      eventsOf (run_episode agent script mode) = Event.reset mode ::
        (runEpisodeLoop agent mode script.actionSample script.init 0 0 0 0
          script.stepFns).2) := by
  constructor
  · exact run_episode_assertion agent script mode
  · intro hv
    constructor
    · intro hc
      exact ((run_episode_assertion agent script mode).1 hc) hv
    · rcases hres : run_episode agent script mode with _ | evts | ⟨ret, len, evts⟩
      · exact absurd hv ((run_episode_assertion agent script mode).1 hres)
      · simpa [eventsOf] using run_episode_diverged_inv hres
      · simpa [eventsOf] using (run_episode_finished_inv hres).2

/-- Witness for C8 at the concrete valid mode `random`. -/
theorem claim_C8_witness :
    run_episode constAgent oneStepScript modeRandom ≠
      RunResult.assertionError ∧
    eventsOf (run_episode constAgent oneStepScript modeRandom) =
      Event.reset modeRandom :: (runEpisodeLoop constAgent modeRandom
        oneStepScript.actionSample oneStepScript.init 0 0 0 0
        oneStepScript.stepFns).2 :=
  (claim_C8 constAgent oneStepScript modeRandom).2 (Or.inr (Or.inr rfl))

/-- C6: an episode run in `test` mode never appends to the replay buffer,
while in `train` and `random` modes exactly one transition is appended per
environment step. -/
theorem claim_C6 (agent : Agent) (script : EpisodeScript) :
    addsOf (eventsOf (run_episode agent script modeTest)) = [] ∧
    (∀ mode, mode = modeTrain ∨ mode = modeRandom →
      (addsOf (eventsOf (run_episode agent script mode))).length =
        (eventsOf (run_episode agent script mode)).countP isEnvStep) := by
  constructor
  · rcases hres : run_episode agent script modeTest with _ | evts | ⟨ret, len, evts⟩
    · simp [eventsOf, addsOf]
    · have h2 := run_episode_diverged_inv hres
      simp only [eventsOf]
      rw [h2]
      simpa [addsOf] using addsOf_runEpisodeLoop_test agent
        script.actionSample script.stepFns script.init 0 0 0 0
    · simp only [eventsOf]
      have h3 := run_episode_adds_test hres
      rw [← length_addsOf] at h3
      exact List.length_eq_zero.1 h3
  · intro mode hm
    have hmne : mode ≠ "test" := by
      rcases hm with rfl | rfl <;> decide
    rcases hres : run_episode agent script mode with _ | evts | ⟨ret, len, evts⟩
    · simp [eventsOf, addsOf]
    · have h2 := run_episode_diverged_inv hres
      simp only [eventsOf]
      rw [h2, length_addsOf]
      have h4 := runEpisodeLoop_countP_add_eq_step agent mode
        script.actionSample hmne script.stepFns script.init 0 0 0 0
      simp [List.countP_cons, isAdd, isEnvStep, h4]
    · simp only [eventsOf]
      rw [length_addsOf, run_episode_adds_count hres hmne]
      exact (run_episode_length hres).2

/-- Witness for C6 at the concrete mode `random`. -/
theorem claim_C6_witness :
    (addsOf (eventsOf (run_episode constAgent oneStepScript
      modeRandom))).length =
      (eventsOf (run_episode constAgent oneStepScript modeRandom)).countP
        isEnvStep :=
  (claim_C6 constAgent oneStepScript).2 modeRandom (Or.inr rfl)

/-- C7: in every execution of `train`, `align_target` happens exactly once,
as the very first effect (in particular before any `update`), and the
warm-up of `start_episodes` random episodes completes before the first
`sample` or `update`. -/
theorem claim_C7 (env : Env) (agent : Agent)
    (start_episodes num_episodes eval_freq batch_size : Nat)
    (evts : List Event)
    (h : train env agent start_episodes num_episodes eval_freq batch_size =
      some evts) :
    ∃ w r, evts = Event.alignTarget :: (w ++ r) ∧
      w.countP isAlign = 0 ∧ r.countP isAlign = 0 ∧
      evts.countP isAlign = 1 ∧
      w.countP isUpdate = 0 ∧ w.countP isSample = 0 ∧
      resetCount modeRandom w = start_episodes := by
  rcases train_inv h with ⟨wr, ws, w, r, a, e, s, hw, ho, rfl⟩
  rcases run_policy_inv env agent modeRandom start_episodes 0 wr ws w hw with
    ⟨_, hgen, hres, _, _, _⟩
  rcases outerLoop_inv env agent eval_freq batch_size
    (num_episodes / eval_freq) 0 start_episodes 0 0 r a e s ho with
    ⟨_, hoAlign, _⟩
  have hwAlign : w.countP isAlign = 0 :=
    hgen isAlign (fun _ => rfl) (fun _ => rfl) (fun _ => rfl)
  refine ⟨w, r, rfl, hwAlign, hoAlign, ?_,
    hgen isUpdate (fun _ => rfl) (fun _ => rfl) (fun _ => rfl),
    hgen isSample (fun _ => rfl) (fun _ => rfl) (fun _ => rfl), ?_⟩
  · simp [List.countP_cons, List.countP_append, isAlign, hwAlign, hoAlign]
  · have := hres modeRandom
    simpa using this

/-- Witness for C7 on a concrete two-iteration run. -/
theorem claim_C7_witness :
    ∃ w r, (train constEnv constAgent 1 2 1 1).get (by decide) =
      Event.alignTarget :: (w ++ r) ∧
      w.countP isAlign = 0 ∧ r.countP isAlign = 0 ∧
      ((train constEnv constAgent 1 2 1 1).get (by decide)).countP
        isAlign = 1 ∧
      w.countP isUpdate = 0 ∧ w.countP isSample = 0 ∧
      resetCount modeRandom w = 1 :=
  claim_C7 constEnv constAgent 1 2 1 1
    ((train constEnv constAgent 1 2 1 1).get (by decide))
    (Option.some_get (by decide)).symm

/-- C10: when `num_episodes < eval_freq` (so `num_episodes // eval_freq`
is `0`) the whole training loop is skipped: no updates, no samples, no
tabular records, no test or train episodes, no training log lines — only
`align_target` (the first event) and the `start_episodes` random warm-up
episodes happen. -/
theorem claim_C10 (env : Env) (agent : Agent)
    (start_episodes num_episodes eval_freq batch_size : Nat)
    (evts : List Event)
    (hlt : num_episodes < eval_freq)
    (h : train env agent start_episodes num_episodes eval_freq batch_size =
      some evts) :
    evts.countP isUpdate = 0 ∧ evts.countP isSample = 0 ∧
    evts.countP isTabular = 0 ∧ resetCount modeTest evts = 0 ∧
    resetCount modeTrain evts = 0 ∧
    resetCount modeRandom evts = start_episodes ∧
    evts.countP isLogTrain = 0 ∧ evts.head? = some Event.alignTarget := by
  rcases train_inv h with ⟨wr, ws, w, r, a, e, s, hw, ho, rfl⟩
  have hz : num_episodes / eval_freq = 0 := Nat.div_eq_of_lt hlt
  rw [hz] at ho
  simp only [outerLoop, Option.some.injEq, Prod.mk.injEq] at ho
  rcases ho with ⟨rfl, _⟩
  rcases run_policy_inv env agent modeRandom start_episodes 0 wr ws w hw with
    ⟨_, hgen, hres, _, _, _⟩
  have hwr := hres modeRandom
  rw [if_pos rfl] at hwr
  have hwt := hres modeTest
  rw [if_neg (by decide)] at hwt
  have hwn := hres modeTrain
  rw [if_neg (by decide)] at hwn
  refine ⟨?_, ?_, ?_, ?_, ?_, ?_, ?_, rfl⟩ <;>
    simp [List.countP_cons, List.countP_append, resetCount, isUpdate,
      isSample, isTabular, isLogTrain, isResetOf,
      hgen isUpdate (fun _ => rfl) (fun _ => rfl) (fun _ => rfl),
      hgen isSample (fun _ => rfl) (fun _ => rfl) (fun _ => rfl),
      hgen isTabular (fun _ => rfl) (fun _ => rfl) (fun _ => rfl),
      hgen isLogTrain (fun _ => rfl) (fun _ => rfl) (fun _ => rfl)] <;>
    first
      | simpa [resetCount] using hwr
      | simpa [resetCount] using hwt
      | simpa [resetCount] using hwn

/-- Witness for C10 with `num_episodes = 0 < 1 = eval_freq`. -/
theorem claim_C10_witness :
    ((train constEnv constAgent 1 0 1 1).get (by decide)).countP
      isUpdate = 0 ∧
    ((train constEnv constAgent 1 0 1 1).get (by decide)).countP
      isSample = 0 ∧
    ((train constEnv constAgent 1 0 1 1).get (by decide)).countP
      isTabular = 0 ∧
    resetCount modeTest
      ((train constEnv constAgent 1 0 1 1).get (by decide)) = 0 ∧
    resetCount modeTrain
      ((train constEnv constAgent 1 0 1 1).get (by decide)) = 0 ∧
    resetCount modeRandom
      ((train constEnv constAgent 1 0 1 1).get (by decide)) = 1 ∧
    ((train constEnv constAgent 1 0 1 1).get (by decide)).countP
      isLogTrain = 0 ∧
    ((train constEnv constAgent 1 0 1 1).get (by decide)).head? =
      some Event.alignTarget :=
  claim_C10 constEnv constAgent 1 0 1 1
    ((train constEnv constAgent 1 0 1 1).get (by decide)) (by decide)
    (Option.some_get (by decide)).symm

/-- C9: every finished episode has length at least 1 (`done` starts false,
so the loop body runs at least once); hence with `start_episodes ≥ 1` the
replay buffer holds at least `start_episodes` transitions before the first
`sample`, and every training block with `batch_size ≥ 1` has
`total_steps ≥ batch_size`, so `num_epoch ≥ 1` and at least one `update`
is performed per block. -/
theorem claim_C9 :
    (∀ (agent : Agent) (script : EpisodeScript) (mode : String) (ret : ℚ)
      (len : Nat) (evts : List Event),
      run_episode agent script mode = RunResult.finished ret len evts →
      1 ≤ len) ∧
    (∀ (env : Env) (agent : Agent)
      (start_episodes num_episodes eval_freq batch_size : Nat)
      (evts : List Event),
      train env agent start_episodes num_episodes eval_freq batch_size =
        some evts → 1 ≤ start_episodes →
      ∃ w r, evts = Event.alignTarget :: (w ++ r) ∧
        w.countP isSample = 0 ∧ start_episodes ≤ w.countP isAdd) ∧
    (∀ (env : Env) (agent : Agent) (batch_size epIdx : Nat)
      (evts : List Event) (steps : Nat),
      trainBlock env agent batch_size epIdx = some (evts, steps) →
      1 ≤ batch_size →
      batch_size ≤ steps ∧ 1 ≤ steps / batch_size ∧
      1 ≤ evts.countP isUpdate) := by
  refine ⟨?_, ?_, ?_⟩
  · intro agent script mode ret len evts h
    exact (run_episode_length h).1
  · intro env agent s n f b evts h hs
    rcases train_inv h with ⟨wr, ws, w, r, a, e, s2, hw, ho, rfl⟩
    rcases run_policy_inv env agent modeRandom s 0 wr ws w hw with
      ⟨_, hgen, _, hsteps, _, hadds⟩
    refine ⟨w, r, rfl,
      hgen isSample (fun _ => rfl) (fun _ => rfl) (fun _ => rfl), ?_⟩
    have := hadds (by decide)
    omega
  · intro env agent b epIdx evts steps h hb
    rcases trainBlock_counts h with ⟨h1, _, _, _, h5, _⟩
    have hdiv : 1 ≤ steps / b := (Nat.one_le_div_iff (by omega)).2 h1
    exact ⟨h1, hdiv, by omega⟩

/-- Witness for C9 on the concrete one-step environment. -/
theorem claim_C9_witness :
    1 ≤ lengthOf (run_episode constAgent oneStepScript modeTrain) ∧
    (∃ w r, (train constEnv constAgent 1 0 1 1).get (by decide) =
      Event.alignTarget :: (w ++ r) ∧
      w.countP isSample = 0 ∧ 1 ≤ w.countP isAdd) ∧
    (1 ≤ ((trainBlock constEnv constAgent 1 0).get (by decide)).2 ∧
      1 ≤ ((trainBlock constEnv constAgent 1 0).get (by decide)).2 / 1 ∧
      1 ≤ ((trainBlock constEnv constAgent 1 0).get
        (by decide)).1.countP isUpdate) :=
  ⟨claim_C9.1 constAgent oneStepScript modeTrain
      (returnOf (run_episode constAgent oneStepScript modeTrain))
      (lengthOf (run_episode constAgent oneStepScript modeTrain))
      (eventsOf (run_episode constAgent oneStepScript modeTrain))
      (finished_eta _ (by decide)),
   claim_C9.2.1 constEnv constAgent 1 0 1 1
      ((train constEnv constAgent 1 0 1 1).get (by decide))
      (Option.some_get (by decide)).symm (le_refl 1),
   claim_C9.2.2 constEnv constAgent 1 0
      ((trainBlock constEnv constAgent 1 0).get (by decide)).1
      ((trainBlock constEnv constAgent 1 0).get (by decide)).2
      (Option.some_get (by decide)).symm (le_refl 1)⟩

/-- C5: the outer loop runs exactly `num_episodes / eval_freq` iterations
(one tabular record each), each iteration runs the training block exactly
`eval_freq` times (one training log line each), each block collects
`batch_size` train-mode episodes and performs exactly
`num_epoch = total_steps / batch_size` updates, each immediately preceded
by its own fresh `sample` draw. -/
theorem claim_C5 :
    (∀ (env : Env) (agent : Agent) (batch_size epIdx : Nat)
      (evts : List Event) (steps : Nat),
      trainBlock env agent batch_size epIdx = some (evts, steps) →
      resetCount modeTrain evts = batch_size ∧
      evts.countP isSample = steps / batch_size ∧
      evts.countP isUpdate = steps / batch_size ∧
      updatesPreceded evts = true) ∧
    (∀ (env : Env) (agent : Agent)
      (start_episodes num_episodes eval_freq batch_size : Nat)
      (evts : List Event),
      train env agent start_episodes num_episodes eval_freq batch_size =
        some evts →
      evts.countP isTabular = num_episodes / eval_freq ∧
      evts.countP isLogTrain = (num_episodes / eval_freq) * eval_freq ∧
      resetCount modeTrain evts =
        (num_episodes / eval_freq) * eval_freq * batch_size ∧
      evts.countP isSample = evts.countP isUpdate ∧
      updatesPreceded evts = true) := by
  constructor
  · intro env agent b epIdx evts steps h
    rcases trainBlock_counts h with ⟨_, h2, _, _, h5, h6, _⟩
    have hP := trainBlock_updatesPreceded h []
    rw [List.append_nil] at hP
    exact ⟨h2, h6, h5, hP⟩
  · intro env agent s n f b evts h
    rcases train_inv h with ⟨wr, ws, w, r, a, e, s2, hw, ho, rfl⟩
    rcases run_policy_inv env agent modeRandom s 0 wr ws w hw with
      ⟨_, hgen, hres, _, _, _⟩
    rcases outerLoop_inv env agent f b (n / f) 0 s 0 0 r a e s2 ho with
      ⟨_, _, _, hoTrain, _, hoLog, hoTab, hoSU, hoP⟩
    have hwTrain := hres modeTrain
    rw [if_neg (by decide)] at hwTrain
    have hwSample : w.countP isSample = 0 :=
      hgen isSample (fun _ => rfl) (fun _ => rfl) (fun _ => rfl)
    have hwUpdate : w.countP isUpdate = 0 :=
      hgen isUpdate (fun _ => rfl) (fun _ => rfl) (fun _ => rfl)
    refine ⟨?_, ?_, ?_, ?_, ?_⟩
    · simp [List.countP_cons, List.countP_append, isTabular,
        hgen isTabular (fun _ => rfl) (fun _ => rfl) (fun _ => rfl), hoTab]
    · simp [List.countP_cons, List.countP_append, isLogTrain,
        hgen isLogTrain (fun _ => rfl) (fun _ => rfl) (fun _ => rfl), hoLog]
    · simp only [resetCount, List.countP_cons, List.countP_append]
      simp only [resetCount] at hwTrain hoTrain
      rw [hwTrain, hoTrain]
      simp [isResetOf, Nat.mul_assoc]
    · simp [List.countP_cons, List.countP_append, isSample, isUpdate,
        hwSample, hwUpdate, hoSU]
    · have hwpure : ∀ x ∈ w, isSample x = false ∧ isUpdate x = false := by
        intro x hx
        constructor
        · have := (List.countP_eq_zero.1 hwSample) x hx
          simpa using this
        · have := (List.countP_eq_zero.1 hwUpdate) x hx
          simpa using this
      have : updatesPreceded (Event.alignTarget :: (w ++ r)) =
          updatesPreceded (w ++ r) := by
        simp [updatesPreceded]
      rw [this, show w ++ r = w ++ (r ++ []) by simp,
        updatesPreceded_append_pure w _ hwpure, hoP []]
      rfl

/-- Witness for C5 on a concrete one-block, two-iteration run. -/
theorem claim_C5_witness :
    (resetCount modeTrain
        ((trainBlock constEnv constAgent 1 0).get (by decide)).1 = 1 ∧
      ((trainBlock constEnv constAgent 1 0).get (by decide)).1.countP
        isSample =
        ((trainBlock constEnv constAgent 1 0).get (by decide)).2 / 1 ∧
      ((trainBlock constEnv constAgent 1 0).get (by decide)).1.countP
        isUpdate =
        ((trainBlock constEnv constAgent 1 0).get (by decide)).2 / 1 ∧
      updatesPreceded
        ((trainBlock constEnv constAgent 1 0).get (by decide)).1 = true) ∧
    (((train constEnv constAgent 1 2 1 1).get (by decide)).countP
        isTabular = 2 / 1 ∧
      ((train constEnv constAgent 1 2 1 1).get (by decide)).countP
        isLogTrain = 2 / 1 * 1 ∧
      resetCount modeTrain
        ((train constEnv constAgent 1 2 1 1).get (by decide)) =
        2 / 1 * 1 * 1 ∧
      ((train constEnv constAgent 1 2 1 1).get (by decide)).countP
        isSample =
        ((train constEnv constAgent 1 2 1 1).get (by decide)).countP
          isUpdate ∧
      updatesPreceded
        ((train constEnv constAgent 1 2 1 1).get (by decide)) = true) :=
  ⟨claim_C5.1 constEnv constAgent 1 0
      ((trainBlock constEnv constAgent 1 0).get (by decide)).1
      ((trainBlock constEnv constAgent 1 0).get (by decide)).2
      (Option.some_get (by decide)).symm,
   claim_C5.2 constEnv constAgent 1 2 1 1
      ((train constEnv constAgent 1 2 1 1).get (by decide))
      (Option.some_get (by decide)).symm⟩

/-- C1: with `start_episodes = 10`, `num_episodes = 20`, `eval_freq = 10`,
`batch_size = 1`, the orchestrator emits exactly two tabular records in
total — iteration `0` with cumulative episodes `10` and iteration `1` with
cumulative episodes `20`, nothing after the second — the cumulative steps
fields are non-decreasing across the records, and before the first record
exactly 10 training episodes and exactly one evaluation block of 10 test
episodes have been performed. -/
theorem claim_C1 (env : Env) (agent : Agent) (evts : List Event)
    (h : train env agent 10 20 10 1 = some evts) :
    ∃ (pre mid : List Event) (s1 s2 : Nat) (a1 v1 a2 v2 : ℚ),
      evts = pre ++ Event.tabular 0 10 s1 a1 v1 ::
        (mid ++ [Event.tabular 1 20 s2 a2 v2]) ∧
      pre.countP isTabular = 0 ∧ mid.countP isTabular = 0 ∧ s1 ≤ s2 ∧
      resetCount modeTrain pre = 10 ∧ resetCount modeTest pre = 10 := by
  rcases train_inv h with ⟨wr, ws, w, r, a, e, s0, hw, ho, rfl⟩
  rw [show (20 : Nat) / 10 = 1 + 1 from by norm_num] at ho
  rcases outerLoop_succ_inv ho with
    ⟨I0, ep1, e1, s1, ret0, st0, T0, R0, hi0, he1, hs1, ht0, hr0, rfl⟩
  rcases outerLoop_succ_inv hr0 with
    ⟨I1, ep2, e2, s2, ret1, st1, T1, R1, hi1, he2, hs2, ht1, hr1, rfl⟩
  simp only [outerLoop, Option.some.injEq, Prod.mk.injEq] at hr1
  rcases hr1 with ⟨rfl, -⟩
  have he1n : e1 = 10 := by omega
  subst he1n
  have he2n : e2 = 20 := by omega
  subst he2n
  rcases run_policy_inv env agent modeRandom 10 0 wr ws w hw with
    ⟨_, hwgen, hwres, _, _, _⟩
  rcases innerLoop_inv env agent 1 10 10 0 0 I0 ep1 10 s1 hi0 with
    ⟨_, _, _, hI0train, hI0test, _, hI0tab, _, _, _, _⟩
  rcases run_policy_inv env agent modeTest num_test_episodes ep1 ret0 st0 T0
    ht0 with ⟨_, hT0gen, hT0res, _, _, _⟩
  rcases innerLoop_inv env agent 1 10 (ep1 + num_test_episodes) 10 s1 I1 ep2
    20 s2 hi1 with ⟨_, _, _, _, _, _, hI1tab, _, _, _, _⟩
  rcases run_policy_inv env agent modeTest num_test_episodes ep2 ret1 st1 T1
    ht1 with ⟨_, hT1gen, _, _, _, _⟩
  have hwTrain := hwres modeTrain
  rw [if_neg (by decide)] at hwTrain
  have hwTest := hwres modeTest
  rw [if_neg (by decide)] at hwTest
  have hT0train := hT0res modeTrain
  rw [if_neg (by decide)] at hT0train
  have hT0test := hT0res modeTest
  rw [if_pos rfl] at hT0test
  refine ⟨Event.alignTarget :: (w ++ (I0 ++ T0)), I1 ++ T1, s1, s2,
    npMean ret0, npVariance ret0, npMean ret1, npVariance ret1,
    ?_, ?_, ?_, hs2, ?_, ?_⟩
  · simp [List.append_assoc]
  · simp [List.countP_cons, List.countP_append, isTabular, hI0tab,
      hwgen isTabular (fun _ => rfl) (fun _ => rfl) (fun _ => rfl),
      hT0gen isTabular (fun _ => rfl) (fun _ => rfl) (fun _ => rfl)]
  · simp [List.countP_append, hI1tab,
      hT1gen isTabular (fun _ => rfl) (fun _ => rfl) (fun _ => rfl)]
  · simp only [resetCount, List.countP_cons, List.countP_append]
    simp only [resetCount] at hwTrain hT0train hI0train
    rw [hwTrain, hT0train, hI0train]
    simp [isResetOf]
  · simp only [resetCount, List.countP_cons, List.countP_append]
    simp only [resetCount] at hwTest hT0test hI0test
    rw [hwTest, hT0test, hI0test]
    simp [isResetOf, num_test_episodes]

/-- Witness for C1 on the concrete one-step environment with the exact
configuration of the claim. -/
theorem claim_C1_witness :
    ∃ (pre mid : List Event) (s1 s2 : Nat) (a1 v1 a2 v2 : ℚ),
      (train constEnv constAgent 10 20 10 1).get (by decide) =
        pre ++ Event.tabular 0 10 s1 a1 v1 ::
          (mid ++ [Event.tabular 1 20 s2 a2 v2]) ∧
      pre.countP isTabular = 0 ∧ mid.countP isTabular = 0 ∧ s1 ≤ s2 ∧
      resetCount modeTrain pre = 10 ∧ resetCount modeTest pre = 10 :=
  claim_C1 constEnv constAgent
    ((train constEnv constAgent 10 20 10 1).get (by decide))
    (Option.some_get (by decide)).symm

end DDPG
